import Mathlib

/-!
Verification development for the wowplug resolution and sync engine.

Each definition is a shallow embedding of a function of the repository,
with the source file and line range recorded in its doc comment.
Python strings are modelled as `String` or `List Char`, byte strings as
`List Nat`, dicts as association lists, and raised exceptions as
`Except`/`Option` error values.
-/

set_option maxHeartbeats 1000000

namespace Wowplug

/-! Model of `Curseforge._make_fuzzy_search_keys`
(src/wowplug/provider.py, lines 627-641). -/

/-- Python `str.lower()`, character-wise case folding. -/
def pyLower (s : String) : String := String.mk (s.data.map Char.toLower)

/-- Auxiliary for the regex substitution `re.sub(r'(\W|_)+', ' ', name)`:
replace each maximal run of non-alphanumeric characters by a single space.
The boolean records whether the previous character belonged to such a run. -/
def collapseRunsAux : Bool → List Char → List Char
  | _, [] => []
  | prevRun, c :: cs =>
    if c.isAlphanum then c :: collapseRunsAux false cs
    else if prevRun then collapseRunsAux true cs
    else ' ' :: collapseRunsAux true cs

/-- Python `re.sub(r'(\W|_)+', ' ', s)`: every maximal run of characters that
are not alphanumeric (the union of `\W` and `_`) is replaced by one space. -/
def subNonAlnumRuns (s : String) : String := String.mk (collapseRunsAux false s.data)

/-- Python `str.strip()` applied after the substitution above; the only
whitespace character that can remain there is the plain space. -/
def stripSpaces (s : String) : String :=
  String.mk (((s.data.dropWhile (· = ' ')).reverse.dropWhile (· = ' ')).reverse)

/-- Auxiliary for `pySplitWs`: the accumulator holds the current token,
reversed. -/
def splitWsAux : List Char → List Char → List (List Char)
  | acc, [] => if acc = [] then [] else [acc.reverse]
  | acc, c :: cs =>
    if c.isWhitespace then
      if acc = [] then splitWsAux [] cs else acc.reverse :: splitWsAux [] cs
    else splitWsAux (c :: acc) cs

/-- Python `str.split()` with no separator: split on whitespace runs,
dropping empty pieces. -/
def pySplitWs (s : String) : List String :=
  (splitWsAux [] s.data).map String.mk

/-- Translation of `Curseforge._make_fuzzy_search_keys`
(provider.py lines 627-641): lower-case the id, lower-case the configured
blacklist, collapse non-alphanumeric runs to spaces and strip, split into
tokens, prepend the full normalized string when it is not itself a token,
remove the first occurrence of the id, then keep only the keys that are
neither blacklisted nor equal to the id. -/
def makeFuzzySearchKeys (blacklist : List String) (name0 : String) : List String :=
  let name := pyLower name0
  let bl := blacklist.map pyLower
  let normName := stripSpaces (subNonAlnumRuns name)
  let stems0 := pySplitWs normName
  let stems1 := if normName ∈ stems0 then stems0 else normName :: stems0
  let stems2 := if name ∈ stems1 then stems1.erase name else stems1
  stems2.filter (fun s => !bl.contains s && s != name)

/-- Membership through the `stems.remove(name)` step of
`_make_fuzzy_search_keys`, for keys different from `name`. -/
theorem mem_removeSelf {k name : String} {l : List String} (hne : k ≠ name) :
    (k ∈ if name ∈ l then l.erase name else l) ↔ k ∈ l := by
  split
  · exact List.mem_erase_of_ne hne
  · exact Iff.rfl

/-- Membership through the `stems.insert(0, norm_name)` step of
`_make_fuzzy_search_keys`. -/
theorem mem_insertNorm {k n : String} {l : List String} :
    (k ∈ if n ∈ l then l else n :: l) ↔ k = n ∨ k ∈ l := by
  split
  · next h =>
    constructor
    · exact Or.inr
    · rintro (rfl | hk)
      · exact h
      · exact hk
  · exact List.mem_cons

/-- C2: for every id string, fuzzy search-key derivation returns exactly the
keys obtained by lower-casing the id, collapsing non-alphanumeric runs to
single spaces and trimming, splitting into tokens, prepending the normalized
full string, and removing the lower-cased id itself and every blacklisted key
(blacklist compared after lower-casing); in particular for `MyAddon_Options`
with an empty blacklist the keys are `myaddon options`, `myaddon`, `options`. -/
theorem c2_fuzzy_search_keys :
    (∀ (blacklist : List String) (name0 : String) (k : String),
      k ∈ makeFuzzySearchKeys blacklist name0 ↔
        ((k = stripSpaces (subNonAlnumRuns (pyLower name0)) ∨
          k ∈ pySplitWs (stripSpaces (subNonAlnumRuns (pyLower name0)))) ∧
         k ∉ blacklist.map pyLower ∧ k ≠ pyLower name0)) ∧
    makeFuzzySearchKeys [] "MyAddon_Options" =
      ["myaddon options", "myaddon", "options"] := by
  constructor
  · intro blacklist name0 k
    unfold makeFuzzySearchKeys
    simp only [List.mem_filter, Bool.and_eq_true, Bool.not_eq_true',
      List.contains, List.elem_eq_mem, decide_eq_false_iff_not, bne_iff_ne, ne_eq]
    constructor
    · rintro ⟨hmem, hbl, hne⟩
      exact ⟨mem_insertNorm.mp ((mem_removeSelf hne).mp hmem), hbl, hne⟩
    · rintro ⟨hor, hbl, hne⟩
      exact ⟨(mem_removeSelf hne).mpr (mem_insertNorm.mpr hor), hbl, hne⟩
  · decide

/-! Model of the verification loop of `Curseforge.find_source`
(provider.py lines 513-538) together with `AddonSource.hastoc`
(provider.py lines 228-233). -/

/-- One candidate project as ranked by `fuzzywuzzy.process.extract`: the
project name, its similarity score, and the component-name list the
project's `addons` property yields once its archive is examined. -/
structure CurseCand where
  name : String
  score : Nat
  addons : List String
deriving DecidableEq

/-- Translation of `AddonSource.hastoc`: `toc_name in self.addons`,
a case-sensitive membership test. -/
def hastoc (c : CurseCand) (tocName : String) : Bool :=
  c.addons.contains tocName

/-- Outcome of the verification loop of `find_source`: a verified project
is returned; a `break` (taken at the `max_try` bound or at a
below-threshold score) skips Python's for-else clause, so `find_source`
falls off its end and returns `None`; only running off the end of the
candidate list reaches the for-else clause, which raises `RuntimeError`. -/
inductive LoopOutcome
  | found (c : CurseCand)
  | broke
  | exhausted
deriving DecidableEq

/-- Translation of the `for i, (name, score) in enumerate(source_names)`
loop of `find_source` (provider.py lines 521-528): returns the examined
candidates (those on which `hastoc` is evaluated) and how the loop ended.
The `Nat` argument is the running enumeration index `i`. -/
def examineCands (minScore maxTry : Nat) (tocName : String) :
    List CurseCand → Nat → List CurseCand × LoopOutcome
  | [], _ => ([], LoopOutcome.exhausted)
  | c :: rest, i =>
    if c.score < minScore ∨ maxTry ≤ i then ([], LoopOutcome.broke)
    else if hastoc c tocName then ([c], LoopOutcome.found c)
    else
      let r := examineCands minScore maxTry tocName rest (i + 1)
      (c :: r.1, r.2)

/-- Tail of `find_source` (provider.py lines 521-538): the loop returns
the verified project; the for-else clause raises `RuntimeError` only when
the loop runs off the end of the candidate list, while a `break` skips the
clause so that the function falls through and returns `None`, modelled as
`Except.ok none`. -/
def findSourceFromRanked (minScore maxTry : Nat) (tocName : String)
    (ranked : List CurseCand) : Except String (Option CurseCand) :=
  match (examineCands minScore maxTry tocName ranked 0).2 with
  | LoopOutcome.found c => Except.ok (some c)
  | LoopOutcome.broke => Except.ok none
  | LoopOutcome.exhausted =>
    Except.error "unable to find TOC after examining projects"

/-- How the loop ends: the first candidate of the bounded prefix passing
`hastoc` is returned; otherwise the loop exhausts when the bounded prefix
is the whole remaining list and breaks when it is shorter. -/
theorem examineCands_outcome (minScore maxTry : Nat) (tocName : String) :
    ∀ (l : List CurseCand) (i : Nat),
      (examineCands minScore maxTry tocName l i).2 =
        (match ((l.take (maxTry - i)).takeWhile
            (fun c => minScore ≤ c.score)).find?
            (fun c => hastoc c tocName) with
         | some c => LoopOutcome.found c
         | none =>
           if (l.take (maxTry - i)).takeWhile (fun c => minScore ≤ c.score)
               = l
           then LoopOutcome.exhausted else LoopOutcome.broke) := by
  intro l
  induction l with
  | nil => intro i; simp [examineCands]
  | cons c rest ih =>
    intro i
    rw [examineCands]
    rcases Nat.lt_or_ge i maxTry with hi | hi
    · have hsub : maxTry - i = (maxTry - (i + 1)) + 1 := by omega
      rcases Nat.lt_or_ge c.score minScore with hs | hs
      · have hcond : (c.score < minScore ∨ maxTry ≤ i) := Or.inl hs
        rw [if_pos hcond, hsub, List.take_succ_cons, List.takeWhile_cons]
        have hns : ¬ minScore ≤ c.score := Nat.not_le.mpr hs
        simp [hns]
      · have hcond : ¬ (c.score < minScore ∨ maxTry ≤ i) := by omega
        rw [if_neg hcond, hsub, List.take_succ_cons, List.takeWhile_cons]
        have hsc : decide (minScore ≤ c.score) = true := decide_eq_true hs
        rw [hsc]
        by_cases hh : hastoc c tocName
        · simp [hh, List.find?_cons_of_pos]
        · simp only [hh, if_false, if_true]
          rw [List.find?_cons_of_neg _ (by simp [hh])]
          show (examineCands minScore maxTry tocName rest (i + 1)).2 = _
          rw [ih (i + 1)]
          cases hfind : ((rest.take (maxTry - (i + 1))).takeWhile
              (fun c => minScore ≤ c.score)).find?
              (fun c => hastoc c tocName) with
          | none => simp [List.cons.injEq]
          | some d => simp
    · have hcond : (c.score < minScore ∨ maxTry ≤ i) := Or.inr hi
      have hsub : maxTry - i = 0 := by omega
      rw [if_pos hcond, hsub]
      simp

/-- The examined candidates form a prefix of the ranked list. -/
theorem examineCands_fst_prefix (minScore maxTry : Nat) (tocName : String) :
    ∀ (l : List CurseCand) (i : Nat),
      (examineCands minScore maxTry tocName l i).1 <+: l := by
  intro l
  induction l with
  | nil => intro i; simp [examineCands]
  | cons c rest ih =>
    intro i
    rw [examineCands]
    split
    · exact List.nil_prefix
    · split
      · exact ⟨rest, rfl⟩
      · obtain ⟨t, ht⟩ := ih (i + 1)
        refine ⟨t, ?_⟩
        show (c :: (examineCands minScore maxTry tocName rest (i + 1)).1) ++ t
          = c :: rest
        rw [List.cons_append, ht]

/-- At most `maxTry - i` candidates are examined. -/
theorem examineCands_fst_length (minScore maxTry : Nat) (tocName : String) :
    ∀ (l : List CurseCand) (i : Nat),
      (examineCands minScore maxTry tocName l i).1.length ≤ maxTry - i := by
  intro l
  induction l with
  | nil => intro i; simp [examineCands]
  | cons c rest ih =>
    intro i
    rw [examineCands]
    split
    · simp
    · next hcond =>
      have hi : i < maxTry := by
        rcases Nat.lt_or_ge i maxTry with h | h
        · exact h
        · exact absurd (Or.inr h) hcond
      split
      · simpa using by omega
      · have := ih (i + 1)
        simp only [List.length_cons]
        omega

/-- Every examined candidate has a score at or above the threshold. -/
theorem examineCands_fst_score (minScore maxTry : Nat) (tocName : String) :
    ∀ (l : List CurseCand) (i : Nat),
      ∀ c ∈ (examineCands minScore maxTry tocName l i).1, minScore ≤ c.score := by
  intro l
  induction l with
  | nil => intro i c hc; simp [examineCands] at hc
  | cons c rest ih =>
    intro i d hd
    rw [examineCands] at hd
    split at hd
    · simp at hd
    · next hcond =>
      have hs : minScore ≤ c.score := by
        rcases Nat.lt_or_ge c.score minScore with h | h
        · exact absurd (Or.inl h) hcond
        · exact h
      split at hd
      · simp at hd
        exact hd ▸ hs
      · rcases List.mem_cons.mp hd with rfl | hmem
        · exact hs
        · exact ih (i + 1) d hmem

/-- C1 counterexample: at the spec's own example (scores 95, 90, 80, 70
with `min_score = 80` and `max_try = 2`) the loop examines the first two
candidates, neither of which verifies, and then stops at the `max_try`
bound: the `break` skips the for-else raise, so `find_source` returns
`None` instead of failing with an error even though the loop ended without
a verified candidate. -/
theorem c1_counterexample :
    findSourceFromRanked 80 2 "T"
      [⟨"a", 95, []⟩, ⟨"b", 90, []⟩, ⟨"c", 80, ["T"]⟩, ⟨"d", 70, []⟩] =
      Except.ok none ∧
    (∀ e, findSourceFromRanked 80 2 "T"
      [⟨"a", 95, []⟩, ⟨"b", 90, []⟩, ⟨"c", 80, ["T"]⟩, ⟨"d", 70, []⟩] ≠
      Except.error e) ∧
    (∀ c, findSourceFromRanked 80 2 "T"
      [⟨"a", 95, []⟩, ⟨"b", 90, []⟩, ⟨"c", 80, ["T"]⟩, ⟨"d", 70, []⟩] ≠
      Except.ok (some c)) := by
  refine ⟨rfl, ?_, ?_⟩
  · intro e h
    rw [show findSourceFromRanked 80 2 "T"
      [⟨"a", 95, []⟩, ⟨"b", 90, []⟩, ⟨"c", 80, ["T"]⟩, ⟨"d", 70, []⟩] =
      Except.ok none from rfl] at h
    cases h
  · intro c h
    rw [show findSourceFromRanked 80 2 "T"
      [⟨"a", 95, []⟩, ⟨"b", 90, []⟩, ⟨"c", 80, ["T"]⟩, ⟨"d", 70, []⟩] =
      Except.ok none from rfl] at h
    exact Option.noConfusion (Except.ok.inj h)

/-- C1 (amended): over a candidate list ranked in descending-score order,
the verification loop of `find_source` examines a prefix of the ranking of
at most `max_try` candidates, all scoring at least `min_score` and still
in descending order; the returned source is exactly the first candidate of
that bounded prefix whose component-name list contains the requested id (a
case-sensitive check).  When no examined candidate verifies, the for-else
clause raises an error only if the loop ran off the end of the candidate
list; stopping at the `max_try` bound or at a below-threshold score breaks
out, skipping the raise, and `find_source` returns `None`. -/
theorem c1_find_source_loop (minScore maxTry : Nat) (tocName : String)
    (ranked : List CurseCand)
    (hsorted : ranked.Pairwise (fun a b => b.score ≤ a.score)) :
    (examineCands minScore maxTry tocName ranked 0).1 <+: ranked ∧
    (examineCands minScore maxTry tocName ranked 0).1.length ≤ maxTry ∧
    (∀ c ∈ (examineCands minScore maxTry tocName ranked 0).1,
      minScore ≤ c.score) ∧
    (examineCands minScore maxTry tocName ranked 0).1.Pairwise
      (fun a b => b.score ≤ a.score) ∧
    (∀ c, findSourceFromRanked minScore maxTry tocName ranked =
        Except.ok (some c) ↔
      ((ranked.take maxTry).takeWhile (fun c => minScore ≤ c.score)).find?
        (fun c => hastoc c tocName) = some c) ∧
    (∀ c, findSourceFromRanked minScore maxTry tocName ranked =
        Except.ok (some c) → hastoc c tocName = true) ∧
    ((∃ e, findSourceFromRanked minScore maxTry tocName ranked =
        Except.error e) ↔
      (((ranked.take maxTry).takeWhile (fun c => minScore ≤ c.score)).find?
        (fun c => hastoc c tocName) = none ∧
       (ranked.take maxTry).takeWhile (fun c => minScore ≤ c.score) =
         ranked)) ∧
    (findSourceFromRanked minScore maxTry tocName ranked =
        Except.ok none ↔
      (((ranked.take maxTry).takeWhile (fun c => minScore ≤ c.score)).find?
        (fun c => hastoc c tocName) = none ∧
       (ranked.take maxTry).takeWhile (fun c => minScore ≤ c.score) ≠
         ranked)) := by
  have hout := examineCands_outcome minScore maxTry tocName ranked 0
  simp only [Nat.sub_zero] at hout
  have hpre := examineCands_fst_prefix minScore maxTry tocName ranked 0
  refine ⟨hpre, ?_, examineCands_fst_score minScore maxTry tocName ranked 0,
    hsorted.sublist hpre.sublist, ?_, ?_, ?_, ?_⟩
  · simpa using examineCands_fst_length minScore maxTry tocName ranked 0
  · intro c
    unfold findSourceFromRanked
    rw [hout]
    cases hfind : ((ranked.take maxTry).takeWhile
        (fun c => minScore ≤ c.score)).find? (fun c => hastoc c tocName) with
    | none =>
      by_cases heq : (ranked.take maxTry).takeWhile
          (fun c => minScore ≤ c.score) = ranked <;> simp [heq]
    | some d => simp
  · intro c h
    unfold findSourceFromRanked at h
    rw [hout] at h
    cases hfind : ((ranked.take maxTry).takeWhile
        (fun c => minScore ≤ c.score)).find? (fun c => hastoc c tocName) with
    | none =>
      rw [hfind] at h
      by_cases heq : (ranked.take maxTry).takeWhile
          (fun c => minScore ≤ c.score) = ranked <;> simp [heq] at h
    | some d =>
      rw [hfind] at h
      have hdc : d = c := Option.some.inj (Except.ok.inj h)
      rw [← hdc]
      simpa using List.find?_some hfind
  · unfold findSourceFromRanked
    rw [hout]
    cases hfind : ((ranked.take maxTry).takeWhile
        (fun c => minScore ≤ c.score)).find? (fun c => hastoc c tocName) with
    | none =>
      by_cases heq : (ranked.take maxTry).takeWhile
          (fun c => minScore ≤ c.score) = ranked <;> simp [heq]
    | some d => simp
  · unfold findSourceFromRanked
    rw [hout]
    cases hfind : ((ranked.take maxTry).takeWhile
        (fun c => minScore ≤ c.score)).find? (fun c => hastoc c tocName) with
    | none =>
      by_cases heq : (ranked.take maxTry).takeWhile
          (fun c => minScore ≤ c.score) = ranked <;> simp [heq]
    | some d => simp

/-- Witness for `c1_find_source_loop`, at the configuration of the spec's
example: scores `[95, 90, 80, 70]`, `min_score = 80`, `max_try = 2`; only
the first two candidates are examined and, neither providing the id, the
loop breaks at the bound and `find_source` returns `None` even though the
third candidate would provide it. -/
theorem c1_find_source_loop_witness :
    ([⟨"a", 95, []⟩, ⟨"b", 90, []⟩, ⟨"c", 80, ["T"]⟩,
      ⟨"d", 70, []⟩] : List CurseCand).Pairwise
        (fun a b => b.score ≤ a.score) ∧
    ((examineCands 80 2 "T"
        [⟨"a", 95, []⟩, ⟨"b", 90, []⟩, ⟨"c", 80, ["T"]⟩, ⟨"d", 70, []⟩] 0).1
      <+: [⟨"a", 95, []⟩, ⟨"b", 90, []⟩, ⟨"c", 80, ["T"]⟩, ⟨"d", 70, []⟩] ∧
     (examineCands 80 2 "T"
        [⟨"a", 95, []⟩, ⟨"b", 90, []⟩, ⟨"c", 80, ["T"]⟩, ⟨"d", 70, []⟩] 0).1.length ≤ 2 ∧
     (∀ c ∈ (examineCands 80 2 "T"
        [⟨"a", 95, []⟩, ⟨"b", 90, []⟩, ⟨"c", 80, ["T"]⟩, ⟨"d", 70, []⟩] 0).1,
       80 ≤ c.score) ∧
     (examineCands 80 2 "T"
        [⟨"a", 95, []⟩, ⟨"b", 90, []⟩, ⟨"c", 80, ["T"]⟩, ⟨"d", 70, []⟩] 0).1.Pairwise
       (fun a b => b.score ≤ a.score) ∧
     (∀ c, findSourceFromRanked 80 2 "T"
        [⟨"a", 95, []⟩, ⟨"b", 90, []⟩, ⟨"c", 80, ["T"]⟩, ⟨"d", 70, []⟩] =
          Except.ok (some c) ↔
       ((([⟨"a", 95, []⟩, ⟨"b", 90, []⟩, ⟨"c", 80, ["T"]⟩,
          ⟨"d", 70, []⟩] : List CurseCand).take 2).takeWhile
           (fun c => 80 ≤ c.score)).find? (fun c => hastoc c "T") = some c) ∧
     (∀ c, findSourceFromRanked 80 2 "T"
        [⟨"a", 95, []⟩, ⟨"b", 90, []⟩, ⟨"c", 80, ["T"]⟩, ⟨"d", 70, []⟩] =
          Except.ok (some c) →
       hastoc c "T" = true) ∧
     ((∃ e, findSourceFromRanked 80 2 "T"
        [⟨"a", 95, []⟩, ⟨"b", 90, []⟩, ⟨"c", 80, ["T"]⟩, ⟨"d", 70, []⟩] =
          Except.error e) ↔
       (((([⟨"a", 95, []⟩, ⟨"b", 90, []⟩, ⟨"c", 80, ["T"]⟩,
          ⟨"d", 70, []⟩] : List CurseCand).take 2).takeWhile
           (fun c => 80 ≤ c.score)).find? (fun c => hastoc c "T") = none ∧
        (([⟨"a", 95, []⟩, ⟨"b", 90, []⟩, ⟨"c", 80, ["T"]⟩,
          ⟨"d", 70, []⟩] : List CurseCand).take 2).takeWhile
           (fun c => 80 ≤ c.score) =
          [⟨"a", 95, []⟩, ⟨"b", 90, []⟩, ⟨"c", 80, ["T"]⟩, ⟨"d", 70, []⟩])) ∧
     (findSourceFromRanked 80 2 "T"
        [⟨"a", 95, []⟩, ⟨"b", 90, []⟩, ⟨"c", 80, ["T"]⟩, ⟨"d", 70, []⟩] =
          Except.ok none ↔
       (((([⟨"a", 95, []⟩, ⟨"b", 90, []⟩, ⟨"c", 80, ["T"]⟩,
          ⟨"d", 70, []⟩] : List CurseCand).take 2).takeWhile
           (fun c => 80 ≤ c.score)).find? (fun c => hastoc c "T") = none ∧
        (([⟨"a", 95, []⟩, ⟨"b", 90, []⟩, ⟨"c", 80, ["T"]⟩,
          ⟨"d", 70, []⟩] : List CurseCand).take 2).takeWhile
           (fun c => 80 ≤ c.score) ≠
          [⟨"a", 95, []⟩, ⟨"b", 90, []⟩, ⟨"c", 80, ["T"]⟩, ⟨"d", 70, []⟩]))) :=
  ⟨by decide,
   c1_find_source_loop 80 2 "T"
     [⟨"a", 95, []⟩, ⟨"b", 90, []⟩, ⟨"c", 80, ["T"]⟩, ⟨"d", 70, []⟩]
     (by decide)⟩

/-! Model of the per-subfolder body of `linkdir` (utils.py lines 165-194). -/

/-- State of a target subfolder path before `linkdir` handles it, as
distinguished by `os.path.exists` and `os.path.islink`. -/
inductive TargetEntry
  | absent
  | link
  | realdir
deriving DecidableEq

/-- Filesystem operations the loop body of `linkdir` can perform on one
target subfolder. -/
inductive LinkOp
  | unlink
  | rmtree
  | symlinkTo (srcdir : String)
deriving DecidableEq

/-- Translation of the `for srcdir, tgtdir in zip(srcdirs, tgtdirs)` loop
body of `linkdir` (utils.py lines 179-193): the operations performed on the
target subfolder, and the `RuntimeError` message when one is raised.
`safeRmtree` models `shutil.rmtree.avoids_symlink_attacks`. -/
def linkdirStep (safeRmtree : Bool) (srcdir : String) (e : TargetEntry) :
    List LinkOp × Option String :=
  match e with
  | TargetEntry.absent => ([LinkOp.symlinkTo srcdir], none)
  | TargetEntry.link => ([LinkOp.unlink, LinkOp.symlinkTo srcdir], none)
  | TargetEntry.realdir =>
    if safeRmtree then ([LinkOp.rmtree, LinkOp.symlinkTo srcdir], none)
    else ([], some "target needs to be deleted first to create a symlink")

/-- C5: an existing symlinked target subfolder is unlinked; an existing real
directory is recursively deleted only when the environment supports
symlink-race-safe recursive removal, and otherwise the step fails with an
error having performed no operation at all; in every non-failing case the
final operation creates the symbolic link from the source directory to the
target subfolder. -/
theorem c5_linkdir_step (safeRmtree : Bool) (srcdir : String)
    (e : TargetEntry) :
    (e = TargetEntry.link →
      linkdirStep safeRmtree srcdir e =
        ([LinkOp.unlink, LinkOp.symlinkTo srcdir], none)) ∧
    (e = TargetEntry.realdir → safeRmtree = true →
      linkdirStep safeRmtree srcdir e =
        ([LinkOp.rmtree, LinkOp.symlinkTo srcdir], none)) ∧
    (e = TargetEntry.realdir → safeRmtree = false →
      (linkdirStep safeRmtree srcdir e).1 = [] ∧
      ∃ msg, (linkdirStep safeRmtree srcdir e).2 = some msg) ∧
    ((linkdirStep safeRmtree srcdir e).2 = none →
      (linkdirStep safeRmtree srcdir e).1.getLast? =
        some (LinkOp.symlinkTo srcdir)) := by
  cases e <;> cases safeRmtree <;> simp [linkdirStep]

/-- Witness for `c5_linkdir_step` at concrete inputs: the symlink case, the
safely-removable real-directory case, and the refusal case. -/
theorem c5_linkdir_step_witness :
    linkdirStep false "src" TargetEntry.link =
      ([LinkOp.unlink, LinkOp.symlinkTo "src"], none) ∧
    linkdirStep true "src" TargetEntry.realdir =
      ([LinkOp.rmtree, LinkOp.symlinkTo "src"], none) ∧
    ((linkdirStep false "src" TargetEntry.realdir).1 = [] ∧
      ∃ msg, (linkdirStep false "src" TargetEntry.realdir).2 = some msg) ∧
    ((linkdirStep true "src" TargetEntry.absent).2 = none →
      (linkdirStep true "src" TargetEntry.absent).1.getLast? =
        some (LinkOp.symlinkTo "src")) :=
  ⟨(c5_linkdir_step false "src" TargetEntry.link).1 rfl,
   (c5_linkdir_step true "src" TargetEntry.realdir).2.1 rfl rfl,
   (c5_linkdir_step false "src" TargetEntry.realdir).2.2.1 rfl rfl,
   (c5_linkdir_step true "src" TargetEntry.absent).2.2.2⟩

/-! Model of the reconciliation performed by `unzipdir`
(utils.py lines 123-162) at the boundary of the external `dirsync`
library.  A directory is modelled as an association list from file name to
file content. -/

/-- The two `dirsync` actions `unzipdir` invokes. -/
inductive DirsyncAction
  | update
  | sync
deriving DecidableEq

/-- Boundary model of a `dirsync.sync(src, tgt, action, ...)` call, after
the documented semantics of the dirsync library: target files whose name
also occurs in the source are overwritten with the source content; the
`sync` action additionally copies source-only files into the target; files
present only in the target are removed only when the `purge` option is
enabled.  The `create` option only creates a missing target directory and
does not change any file, so it is not represented. -/
def dirsyncRun (action : DirsyncAction) (purge : Bool)
    (src tgt : List (String × String)) : List (String × String) :=
  let updated := tgt.map (fun e =>
    match src.lookup e.1 with
    | some c => (e.1, c)
    | none => e)
  let kept :=
    if purge then updated.filter (fun e => (src.lookup e.1).isSome)
    else updated
  match action with
  | DirsyncAction.update => kept
  | DirsyncAction.sync => kept ++ src.filter (fun e => (tgt.lookup e.1).isNone)

/-- Translation of the per-subfolder reconciliation of `unzipdir`
(utils.py lines 149-161): `dirsync.sync(srcdir, tgtdir, "update",
create=True)` followed by `dirsync.sync(srcdir, tgtdir, "sync",
purge=False)`, in that order. -/
def unzipdirReconcile (src tgt : List (String × String)) :
    List (String × String) :=
  dirsyncRun DirsyncAction.sync false src
    (dirsyncRun DirsyncAction.update false src tgt)

/-- The removal behaviour claimed for the second reconciliation pass:
every target file whose name is absent from the source is removed. -/
def reconcileRemovesAbsent (src tgt : List (String × String)) : Prop :=
  ∀ n, (tgt.lookup n).isSome → src.lookup n = none →
    (unzipdirReconcile src tgt).lookup n = none

/-- C4 counterexample: with source `a.lua` and target `a.lua`, `stale.lua`,
the reconciliation keeps `stale.lua` with its old content, so the claimed
removal pass does not exist: both `dirsync` calls are made with the purge
option disabled and no target file is ever removed. -/
theorem c4_counterexample :
    ¬ reconcileRemovesAbsent [("a.lua", "new")]
        [("a.lua", "old"), ("stale.lua", "x")] ∧
    (unzipdirReconcile [("a.lua", "new")]
        [("a.lua", "old"), ("stale.lua", "x")]).lookup "stale.lua" =
      some "x" := by
  constructor
  · intro h
    have hx := h "stale.lua" (by decide) (by decide)
    rw [show (unzipdirReconcile [("a.lua", "new")]
        [("a.lua", "old"), ("stale.lua", "x")]).lookup "stale.lua" =
      some "x" from rfl] at hx
    cases hx
  · rfl

/-- Helper: looking a name up after the overwrite-from-source pass. -/
theorem lookup_overwrite (src : List (String × String)) (n : String) :
    ∀ tgt : List (String × String),
      (tgt.map (fun e =>
        match src.lookup e.1 with
        | some c => (e.1, c)
        | none => e)).lookup n =
      (match tgt.lookup n with
       | none => none
       | some v =>
         match src.lookup n with
         | some c => some c
         | none => some v) := by
  intro tgt
  induction tgt with
  | nil => rfl
  | cons e es ih =>
    obtain ⟨k, v⟩ := e
    by_cases hk : n = k
    · subst hk
      cases hsrc : src.lookup n <;>
        simp [List.lookup, hsrc]
    · have hbeq : (n == k) = false := beq_eq_false_iff_ne.mpr hk
      cases hsrc : src.lookup k <;>
        simp [List.lookup, hbeq, hsrc, ih]

/-- Helper: looking a name up in the source-only files appended by the
`sync` action. -/
theorem lookup_srcOnly (tgt : List (String × String)) (n : String)
    (hn : tgt.lookup n = none) :
    ∀ src : List (String × String),
      (src.filter (fun e => (tgt.lookup e.1).isNone)).lookup n =
        src.lookup n := by
  intro src
  induction src with
  | nil => rfl
  | cons e es ih =>
    obtain ⟨k, v⟩ := e
    by_cases hk : n = k
    · subst hk
      simp [List.filter_cons, hn, List.lookup]
    · have hbeq : (n == k) = false := beq_eq_false_iff_ne.mpr hk
      cases hkt : (tgt.lookup k).isNone <;>
        simp [List.filter_cons, hkt, List.lookup, hbeq, ih]

/-- Helper: the appended source-only files contain no name that the target
already has. -/
theorem lookup_srcOnly_none (tgt : List (String × String)) (n : String)
    (hn : (tgt.lookup n).isSome) :
    ∀ src : List (String × String),
      (src.filter (fun e => (tgt.lookup e.1).isNone)).lookup n = none := by
  intro src
  induction src with
  | nil => rfl
  | cons e es ih =>
    obtain ⟨k, v⟩ := e
    by_cases hk : n = k
    · subst hk
      have hfalse : (tgt.lookup n).isNone = false := by
        cases h : tgt.lookup n
        · rw [h] at hn; cases hn
        · rfl
      simp [List.filter_cons, hfalse, ih]
    · have hbeq : (n == k) = false := beq_eq_false_iff_ne.mpr hk
      cases hkt : (tgt.lookup k).isNone <;>
        simp [List.filter_cons, hkt, List.lookup, hbeq, ih]

/-- Keys are unchanged by the overwrite-from-source pass, so a lookup in the
original target succeeds exactly when it succeeds in the updated one. -/
theorem lookup_overwrite_isSome (src : List (String × String)) (n : String)
    (tgt : List (String × String)) :
    ((tgt.map (fun e =>
      match src.lookup e.1 with
      | some c => (e.1, c)
      | none => e)).lookup n).isSome = (tgt.lookup n).isSome := by
  rw [lookup_overwrite]
  cases htgt : tgt.lookup n
  · rfl
  · cases hsrc : src.lookup n <;> rfl

/-- C4 amended: `unzipdir` reconciles in exactly two passes in a fixed
order, the update pass (with directory creation) always preceding the
additive `sync` pass, and the combined effect is create-and-update only:
for every file name the result carries the source content when the source
has the file and the previous target content otherwise; no target file is
removed, because both passes run with the purge option disabled. -/
theorem c4_reconcile_no_removal (src tgt : List (String × String))
    (n : String) :
    (unzipdirReconcile src tgt).lookup n =
      (match src.lookup n with
       | some c => some c
       | none => tgt.lookup n) := by
  have hdef : unzipdirReconcile src tgt =
      ((tgt.map (fun e =>
        match src.lookup e.1 with
        | some c => (e.1, c)
        | none => e)).map (fun e =>
        match src.lookup e.1 with
        | some c => (e.1, c)
        | none => e)) ++
      src.filter (fun e =>
        (((tgt.map (fun e =>
          match src.lookup e.1 with
          | some c => (e.1, c)
          | none => e))).lookup e.1).isNone) := rfl
  rw [hdef, List.lookup_append, lookup_overwrite, lookup_overwrite]
  cases htgt : tgt.lookup n
  · have hnone : ((tgt.map (fun e =>
        match src.lookup e.1 with
        | some c => (e.1, c)
        | none => e))).lookup n = none := by
      rw [lookup_overwrite, htgt]
    rw [lookup_srcOnly _ _ hnone src]
    cases hsrc : src.lookup n <;> simp [Option.or]
  · next v =>
    have hsome : (((tgt.map (fun e =>
        match src.lookup e.1 with
        | some c => (e.1, c)
        | none => e))).lookup n).isSome = true := by
      rw [lookup_overwrite, htgt]
      cases hsrc : src.lookup n <;> rfl
    rw [lookup_srcOnly_none _ _ hsome src]
    cases hsrc : src.lookup n <;> simp [Option.or]

/-! Model of `resolve_addon` and `scan` (src/wowplug/scan.py). -/

/-- Python `\w` character class on the id strings in play. -/
def isPyWordChar (c : Char) : Bool := c.isAlphanum || c = '_'

/-- Python `str.strip()` on a character list. -/
def pyStripChars (l : List Char) : List Char :=
  ((l.dropWhile (fun c => c.isWhitespace)).reverse.dropWhile
    (fun c => c.isWhitespace)).reverse

/-- Translation of the header regex `^##\s*(\w+)\s*:\s*(.+)$` of
`resolve_addon` (scan.py line 112) applied to one line (without its
trailing newline), returning the `(key, stripped value)` pair recorded by
`info['toc'][m.group(1)] = m.group(2).strip()` on a match. -/
def parseTocLine (ln : List Char) : Option (String × String) :=
  match ln with
  | '#' :: '#' :: rest =>
    let rest1 := rest.dropWhile (fun c => c.isWhitespace)
    let key := rest1.takeWhile isPyWordChar
    let rest2 := (rest1.dropWhile isPyWordChar).dropWhile
      (fun c => c.isWhitespace)
    if key.isEmpty then none
    else
      match rest2 with
      | ':' :: rest3 =>
        if rest3.isEmpty then none
        else some (String.mk key, String.mk (pyStripChars rest3))
      | _ => none
  | _ => none

/-- Result dict of `resolve_addon` (scan.py lines 97-119): `state` is
`some PLUG_INVALID` exactly when the `state` key was set by the invalid
branch, and `toc` is `some` exactly when the dict carries a `toc` key.
Duplicate header tags are retained in file order; the last occurrence is
the dict value. -/
structure AddonEntry where
  toc_dir : String
  toc_name : String
  state : Option String
  toc : Option (List (String × String))
deriving DecidableEq

/-- The `PLUG_INVALID` state constant (scan.py line 123). -/
def PLUG_INVALID : String := "invalid"

/-- Translation of `resolve_addon` (scan.py lines 97-119).  A TOC file is
given by the basename of its containing folder, the stem of the file name,
and its lines: on a folder/stem mismatch the entry is returned with
`state=PLUG_INVALID` and, in particular, without a `toc` key. -/
def resolveAddon (dirBase stem : String) (lines : List (List Char)) :
    AddonEntry :=
  if stem ≠ dirBase then
    { toc_dir := dirBase, toc_name := stem,
      state := some PLUG_INVALID, toc := none }
  else
    { toc_dir := dirBase, toc_name := stem, state := none,
      toc := some (lines.filterMap parseTocLine) }

/-- Python `dict.get(key, default)` on the parsed tag dict: with duplicate
tags the last assignment wins, hence the reversed lookup. -/
def tocGet (t : List (String × String)) (k d : String) : String :=
  match t.reverse.lookup k with
  | some v => v
  | none => d

/-- Translation of the summary loop of `scan` (scan.py lines 45-50): each
iteration evaluates `addon['toc']`, which raises `KeyError` when the entry
carries no `toc` key. -/
def scanSummary : List AddonEntry → Except String (List String)
  | [] => Except.ok []
  | a :: rest =>
    match a.toc with
    | none => Except.error "KeyError: toc"
    | some t =>
      match scanSummary rest with
      | Except.ok ls =>
        Except.ok ((tocGet t "Interface" "N/A" ++ " " ++
          tocGet t "Version" "N/A" ++ " " ++ a.toc_name) :: ls)
      | Except.error e => Except.error e

/-- Translation of the front part of `scan` (scan.py lines 37-51): collect
the entries, raise `RuntimeError` when there are none, then build the
summary lines for every collected entry. -/
def scanModel (entries : List AddonEntry) : Except String (List String) :=
  if entries.isEmpty then Except.error "RuntimeError: no addon found"
  else scanSummary entries

/-- C6: evaluating `scan` on a directory whose only metadata file `Bar.toc`
sits in a folder named `Foo`: `resolve_addon` flags the entry with
`state=PLUG_INVALID` instead of raising, as the claim states, but `scan`
itself does not filter the flagged entry out: its summary loop evaluates
`addon['toc']` on it and crashes with a `KeyError`, so callers never get to
exclude the entry. -/
theorem c6_scan_keyerror_on_flagged_entry :
    (resolveAddon "Foo" "Bar" []).state = some PLUG_INVALID ∧
    (resolveAddon "Foo" "Bar" []).toc = none ∧
    scanModel [resolveAddon "Foo" "Bar" []] =
      Except.error "KeyError: toc" := by
  refine ⟨rfl, rfl, rfl⟩

/-! Model of the output document built by `scan` when an output file is
given (scan.py lines 52-94). -/

/-- One provider as `scan` consumes it: its registry name and its
`has_addon` membership test. -/
structure ProviderM where
  name : String
  has_addon : String → Bool

/-- Values of the YAML-shaped ordered output mapping. -/
inductive YVal
  | str (s : String)
  | strList (xs : List String)
  | map (entries : List (String × YVal))

/-- Translation of the provider-collection loop of `scan` (scan.py lines
64-72): for each provider, in registration order, the ids it provides are
listed under its name and added to the `collected` set. -/
def scanCollect (providers : List ProviderM) (names : List String) :
    List (String × YVal) × List String :=
  providers.foldl
    (fun acc p =>
      let pdict := names.filter p.has_addon
      (acc.1 ++ [(p.name, YVal.strList pdict)], acc.2 ++ pdict))
    ([], [])

/-- Translation of the output document of `scan` (scan.py lines 62-90):
the per-provider sections, then `skipped`, then `scan: {dir}`, then the
echoed `github_providers` specs. -/
def scanOutput (providers : List ProviderM) (names : List String)
    (scandir : String) (specs : List String) : List (String × YVal) :=
  (scanCollect providers names).1 ++
    [("skipped", YVal.strList (names.filter
        (fun a => !(scanCollect providers names).2.contains a))),
     ("scan", YVal.map [("dir", YVal.str scandir)]),
     ("github_providers", YVal.strList specs)]

/-- The schema asserted by the claim for the scan output document:
every provider name maps to a source-name keyed mapping, `skipped` is a
flat list, and a `config` key carries the scan and cache directories. -/
def claimedOutputSchema (providerNames : List String)
    (doc : List (String × YVal)) : Prop :=
  (∀ p ∈ providerNames, ∃ m, doc.lookup p = some (YVal.map m)) ∧
  (∃ ids, doc.lookup "skipped" = some (YVal.strList ids)) ∧
  (∃ sd cd, doc.lookup "config" =
    some (YVal.map [("scan", YVal.map [("dir", YVal.str sd)]),
                    ("cache", YVal.map [("dir", YVal.str cd)])]))

/-- C8 counterexample: for the registered providers `github`, `curseforge`,
`local` and inventory `AddonA` (provided by curseforge), `AddonB`
(unprovided), the produced document has no `config` key at all (the cache
directory is never echoed, the scan directory sits under a top-level `scan`
key) and each provider name maps to a flat id list rather than to a
source-name keyed mapping. -/
theorem c8_counterexample :
    ¬ claimedOutputSchema ["github", "curseforge", "local"]
        (scanOutput
          [⟨"github", fun _ => false⟩,
           ⟨"curseforge", fun n => n == "AddonA"⟩,
           ⟨"local", fun _ => false⟩]
          ["AddonA", "AddonB"] "somedir" []) := by
  rintro ⟨-, -, sd, cd, h⟩
  have hnone : (scanOutput
      [⟨"github", fun _ => false⟩,
       ⟨"curseforge", fun n => n == "AddonA"⟩,
       ⟨"local", fun _ => false⟩]
      ["AddonA", "AddonB"] "somedir" []).lookup "config" = none := rfl
  rw [hnone] at h
  cases h

/-- Fold characterization of the provider-collection loop of `scan`. -/
theorem scanCollect_eq (names : List String) :
    ∀ (providers : List ProviderM)
      (acc : List (String × YVal) × List String),
      providers.foldl
        (fun acc p =>
          let pdict := names.filter p.has_addon
          (acc.1 ++ [(p.name, YVal.strList pdict)], acc.2 ++ pdict))
        acc =
      (acc.1 ++ providers.map
        (fun p => (p.name, YVal.strList (names.filter p.has_addon))),
       acc.2 ++ (providers.map
        (fun p => names.filter p.has_addon)).flatten) := by
  intro providers
  induction providers with
  | nil => intro acc; simp
  | cons p ps ih =>
    intro acc
    rw [List.foldl_cons, ih]
    simp

/-- Membership in the concatenation of the per-provider id lists. -/
theorem mem_collected (names : List String) (providers : List ProviderM)
    (a : String) :
    ((providers.map (fun p => names.filter p.has_addon)).flatten.contains a)
      = (a ∈ names && providers.any (fun p => p.has_addon a)) := by
  rw [Bool.eq_iff_iff]
  simp only [Bool.and_eq_true, decide_eq_true_eq, List.any_eq_true]
  constructor
  · intro h
    obtain ⟨x, hx, hbeq⟩ := List.contains_iff_exists_mem_beq.mp h
    obtain rfl := eq_of_beq hbeq
    obtain ⟨l, hl, hxl⟩ := List.mem_flatten.mp hx
    obtain ⟨p, hp, rfl⟩ := List.mem_map.mp hl
    have hf := List.mem_filter.mp hxl
    exact ⟨hf.1, p, hp, hf.2⟩
  · rintro ⟨ha, p, hp, hpa⟩
    apply List.contains_iff_exists_mem_beq.mpr
    refine ⟨a, List.mem_flatten.mpr
      ⟨names.filter p.has_addon, List.mem_map.mpr ⟨p, hp, rfl⟩,
        List.mem_filter.mpr ⟨ha, hpa⟩⟩, ?_⟩
    simp

/-- C8 amended: the scan output document consists of the provider names,
in provider-registration order, each mapping to the flat list of inventory
ids that provider provides; then a flat `skipped` list of the ids provided
by no provider; then a `scan` key carrying the scan directory; then a
`github_providers` key echoing the configured specs.  There is no `config`
key and no per-source grouping, and the cache directory is not recorded. -/
theorem c8_output_document (providers : List ProviderM)
    (names : List String) (scandir : String) (specs : List String) :
    scanOutput providers names scandir specs =
      providers.map
        (fun p => (p.name, YVal.strList (names.filter p.has_addon))) ++
      [("skipped", YVal.strList (names.filter
          (fun a => !providers.any (fun p => p.has_addon a)))),
       ("scan", YVal.map [("dir", YVal.str scandir)]),
       ("github_providers", YVal.strList specs)] := by
  unfold scanOutput scanCollect
  rw [scanCollect_eq]
  simp only [List.nil_append]
  have hfilter : names.filter
      (fun a => !(providers.map
        (fun p => names.filter p.has_addon)).flatten.contains a) =
      names.filter (fun a => !providers.any (fun p => p.has_addon a)) := by
    apply List.filter_congr
    intro a ha
    rw [mem_collected]
    simp [ha]
  rw [hfilter]

/-! Model of `sync` (src/wowplug/sync.py, lines 22-135). -/

/-- Python substring containment `s in f` over character lists. -/
def containsSub (s f : List Char) : Bool :=
  (List.range (f.length + 1)).any (fun i => s.isPrefixOf (f.drop i))

/-- A string is contained in any list that sandwiches it. -/
theorem containsSub_sandwich (a b s : List Char) :
    containsSub s (a ++ (s ++ b)) = true := by
  apply List.any_eq_true.mpr
  refine ⟨a.length, List.mem_range.mpr ?_, ?_⟩
  · simp only [List.length_append]
    omega
  · rw [List.drop_left]
    exact List.isPrefixOf_iff_prefix.mpr (List.prefix_append s b)

/-- The backup filename `"AddOns_{}_{}.zip".format(timestamp, sha)`
(sync.py lines 75-76). -/
def bakFileName (timestamp sha : List Char) : List Char :=
  "AddOns_".data ++ (timestamp ++ ("_".data ++ (sha ++ ".zip".data)))

/-- The glob pattern `AddOns_*.zip` passed to `get_from_cachedir`
(sync.py line 71). -/
def matchesBakGlob (f : List Char) : Bool :=
  "AddOns_".data.isPrefixOf f &&
    ".zip".data.isSuffixOf (f.drop "AddOns_".data.length)

/-- Every generated backup filename matches the backup glob. -/
theorem matchesBakGlob_bakFileName (ts sha : List Char) :
    matchesBakGlob (bakFileName ts sha) = true := by
  unfold matchesBakGlob bakFileName
  rw [List.drop_left, Bool.and_eq_true]
  refine ⟨List.isPrefixOf_iff_prefix.mpr (List.prefix_append _ _), ?_⟩
  apply List.isSuffixOf_iff_suffix.mpr
  exact ((List.suffix_append sha ".zip".data).trans
    (List.suffix_append "_".data _)).trans (List.suffix_append ts _)

/-- Every generated backup filename contains its own digest. -/
theorem containsSub_bakFileName (ts sha : List Char) :
    containsSub sha (bakFileName ts sha) = true := by
  have h := containsSub_sandwich (("AddOns_".data ++ ts) ++ "_".data)
    ".zip".data sha
  have he : (("AddOns_".data ++ ts) ++ "_".data) ++ (sha ++ ".zip".data) =
      bakFileName ts sha := by
    unfold bakFileName
    simp [List.append_assoc]
  rw [he] at h
  exact h

/-- Observable effects of one `sync` run, in program order.  Listing the
constructed sources (line 32) and the status reprints (line 134) write only
to the log and the terminal, so they are not modelled as effects. -/
inductive SyncEff
  | scanTarget
  | saveBackup (filename : List Char)
  | mkdirTarget
  | sourceSync (provider : String) (name : String)
  | logException (name : String)
  | logFinished (name : String)
deriving DecidableEq

/-- Boundary environment of one `sync` run: the outcome of every
collaborator call `sync` makes.  `scanResult` is the outcome of the
`scan(target)` call at line 52: `Except.error ()` models the `RuntimeError`
caught at line 53, and `Except.ok ()` a returning call, which in this
revision of `scan.py` always returns `None` (scan.py lines 53-54); these
are the two outcomes `sync` handles (a `KeyError` escaping `scan` on an
invalid entry would propagate uncaught, see `scanModel`).  `bakContent` is
the byte content of the in-memory zip produced by `zipdir(target)`. -/
structure SyncWorld where
  targetExists : Bool
  scanResult : Except Unit Unit
  listing : List String
  cacheFiles : List (List Char)
  timestamp : List Char
  bakContent : List Nat
  syncRaises : String × String → Bool

/-- Result of one modelled `sync` run: the constructed sources, the effect
trace, the cache directory contents afterwards, and the error message when
`sync` raises. -/
structure SyncRun where
  sources : List (String × String)
  effects : List SyncEff
  cacheAfter : List (List Char)
  raised : Option String
deriving DecidableEq

/-- Translation of the source-construction loop of `sync` (sync.py lines
25-31): providers in registration order, each contributing one source per
name listed under its provider name in `sdict`. -/
def mkSyncSources (providers : List String)
    (sdict : List (String × List String)) : List (String × String) :=
  (providers.map (fun p =>
    match sdict.lookup p with
    | none => []
    | some ks => ks.map (fun k => (p, k)))).flatten

/-- Translation of the dispatch loop of `sync` (sync.py lines 122-134):
every submitted source runs; `f.result()` re-raises a source's exception,
which is caught and logged, and the iteration continues.  Completion order
is modelled as submission order. -/
def dispatchSources (raises : String × String → Bool) :
    List (String × String) → List SyncEff
  | [] => []
  | s :: rest =>
    SyncEff.sourceSync s.1 s.2 ::
      ((if raises s then [SyncEff.logException s.2]
        else [SyncEff.logFinished s.2]) ++ dispatchSources raises rest)

/-- Translation of the backup block and dispatch tail of `sync` (sync.py
lines 63-134) as a function of the value the `addons` variable received at
lines 52-62; `none` models Python `None` and `some l` a list value.  The
backup block (lines 63-81) runs only when `addons` is truthy, that is a
non-empty list (`if addons:`); the truthiness tests `if addons:` and
`if not oldbak:` are modelled as matches on the corresponding lists. -/
def syncAfterScan (sha : List Nat → List Char)
    (sources : List (String × String)) (w : SyncWorld)
    (addons : Option (List String)) : SyncRun :=
  match addons with
  | some (_ :: _) =>
    match (w.cacheFiles.filter matchesBakGlob).filter
        (fun f => containsSub (sha w.bakContent) f) with
    | [] =>
      { sources := sources,
        effects := SyncEff.scanTarget ::
          SyncEff.saveBackup (bakFileName w.timestamp (sha w.bakContent)) ::
          dispatchSources w.syncRaises sources,
        cacheAfter := w.cacheFiles ++
          [bakFileName w.timestamp (sha w.bakContent)],
        raised := none }
    | _ :: _ =>
      { sources := sources,
        effects := SyncEff.scanTarget ::
          dispatchSources w.syncRaises sources,
        cacheAfter := w.cacheFiles, raised := none }
  | _ =>
    { sources := sources,
      effects := SyncEff.scanTarget ::
        dispatchSources w.syncRaises sources,
      cacheAfter := w.cacheFiles, raised := none }

/-- Translation of `sync` (sync.py lines 22-135).  `sha` models the digest
computation `base64.urlsafe_b64encode(hashlib.sha256(content).digest())`
(lines 68-69) as a function of the zipped content.  The except-branch of
lines 50-62 sets `addons = []` and a returning `scan(target)` call yields
`None`, so `syncAfterScan` receives `some []` or `none` respectively and
its backup block is unreachable from here. -/
def syncModel (sha : List Nat → List Char) (providers : List String)
    (sdict : List (String × List String)) (target : Option String)
    (w : SyncWorld) : SyncRun :=
  let sources := mkSyncSources providers sdict
  match target with
  | none => { sources := sources, effects := [],
              cacheAfter := w.cacheFiles, raised := none }
  | some _ =>
    if w.targetExists then
      match w.scanResult with
      | Except.error _ =>
        match w.listing with
        | [] => syncAfterScan sha sources w (some [])
        | _ :: _ =>
          { sources := sources, effects := [SyncEff.scanTarget],
            cacheAfter := w.cacheFiles,
            raised := some "sync target is not empty and appears to be NOT an addon directory" }
      | Except.ok _ => syncAfterScan sha sources w none
    else
      { sources := sources,
        effects := SyncEff.mkdirTarget ::
          dispatchSources w.syncRaises sources,
        cacheAfter := w.cacheFiles, raised := none }

/-- The dispatch loop never writes a backup. -/
theorem dispatch_no_backup (raises : String × String → Bool) :
    ∀ (l : List (String × String)) (f : List Char),
      SyncEff.saveBackup f ∉ dispatchSources raises l := by
  intro l
  induction l with
  | nil => intro f h; cases h
  | cons s rest ih =>
    intro f h
    rw [dispatchSources] at h
    rcases List.mem_cons.mp h with h1 | h2
    · cases h1
    · rcases List.mem_append.mp h2 with h3 | h4
      · split at h3 <;> simp at h3
      · exact ih f h4

/-- Every submitted source appears in the dispatch trace, with its logged
outcome. -/
theorem dispatch_mem (raises : String × String → Bool) :
    ∀ (l : List (String × String)), ∀ s ∈ l,
      SyncEff.sourceSync s.1 s.2 ∈ dispatchSources raises l ∧
      (raises s = true →
        SyncEff.logException s.2 ∈ dispatchSources raises l) ∧
      (raises s = false →
        SyncEff.logFinished s.2 ∈ dispatchSources raises l) := by
  intro l
  induction l with
  | nil => intro s hs; cases hs
  | cons x rest ih =>
    intro s hs
    rw [dispatchSources]
    rcases List.mem_cons.mp hs with rfl | hmem
    · refine ⟨List.mem_cons_self _ _, ?_, ?_⟩
      · intro hr
        apply List.mem_cons_of_mem
        apply List.mem_append_left
        rw [hr]
        exact List.mem_singleton.mpr rfl
      · intro hr
        apply List.mem_cons_of_mem
        apply List.mem_append_left
        rw [hr]
        exact List.mem_singleton.mpr rfl
    · obtain ⟨h1, h2, h3⟩ := ih s hmem
      refine ⟨List.mem_cons_of_mem _ (List.mem_append_right _ h1), ?_, ?_⟩
      · intro hr
        exact List.mem_cons_of_mem _ (List.mem_append_right _ (h2 hr))
      · intro hr
        exact List.mem_cons_of_mem _ (List.mem_append_right _ (h3 hr))

/-- Whenever the unsafe-target branch is not taken, the run completes
without raising and its effect trace ends with the full dispatch of all
sources. -/
theorem syncModel_reaches_dispatch (sha : List Nat → List Char)
    (providers : List String) (sdict : List (String × List String))
    (t : String) (w : SyncWorld)
    (hsafe : w.targetExists = true → w.scanResult = Except.error () →
      w.listing = []) :
    ∃ pre,
      (syncModel sha providers sdict (some t) w).effects =
        pre ++ dispatchSources w.syncRaises (mkSyncSources providers sdict) ∧
      (syncModel sha providers sdict (some t) w).raised = none := by
  cases hex : w.targetExists
  · exact ⟨[SyncEff.mkdirTarget], by simp [syncModel, hex]⟩
  · cases hscan : w.scanResult with
    | error e =>
      cases e
      have hnil : w.listing = [] := hsafe hex hscan
      exact ⟨[SyncEff.scanTarget],
        by simp [syncModel, syncAfterScan, hex, hscan, hnil]⟩
    | ok u =>
      cases u
      exact ⟨[SyncEff.scanTarget],
        by simp [syncModel, syncAfterScan, hex, hscan]⟩

/-- C10: a `sync` call with the target argument omitted only constructs the
source list from `sdict` and returns: its effect trace is empty, so no
directory is scanned, no backup is written, no target directory is created,
no source sync runs, and the cache contents are unchanged. -/
theorem c10_sync_without_target (sha : List Nat → List Char)
    (providers : List String) (sdict : List (String × List String))
    (w : SyncWorld) :
    syncModel sha providers sdict none w =
      { sources := mkSyncSources providers sdict, effects := [],
        cacheAfter := w.cacheFiles, raised := none } := rfl

/-- C7: when the target directory exists and scanning it raises (no
components found), a non-empty directory listing makes `sync` raise after
the scan and before any backup, directory creation or source dispatch,
while an empty listing lets the run proceed as a fresh target, with the
full dispatch and no backup written. -/
theorem c7_unsafe_or_fresh_target (sha : List Nat → List Char)
    (providers : List String) (sdict : List (String × List String))
    (t : String) (w : SyncWorld)
    (hex : w.targetExists = true)
    (hscan : w.scanResult = Except.error ()) :
    (w.listing ≠ [] →
      (∃ msg, (syncModel sha providers sdict (some t) w).raised = some msg) ∧
      (syncModel sha providers sdict (some t) w).effects =
        [SyncEff.scanTarget] ∧
      (syncModel sha providers sdict (some t) w).cacheAfter =
        w.cacheFiles) ∧
    (w.listing = [] →
      (syncModel sha providers sdict (some t) w).raised = none ∧
      (syncModel sha providers sdict (some t) w).effects =
        SyncEff.scanTarget ::
          dispatchSources w.syncRaises (mkSyncSources providers sdict) ∧
      (∀ f, SyncEff.saveBackup f ∉
        (syncModel sha providers sdict (some t) w).effects) ∧
      (syncModel sha providers sdict (some t) w).cacheAfter =
        w.cacheFiles) := by
  constructor
  · intro hne
    cases hl : w.listing with
    | nil => exact absurd hl hne
    | cons a as =>
      have heq : syncModel sha providers sdict (some t) w =
          { sources := mkSyncSources providers sdict,
            effects := [SyncEff.scanTarget],
            cacheAfter := w.cacheFiles,
            raised := some "sync target is not empty and appears to be NOT an addon directory" } := by
        simp [syncModel, hex, hscan, hl]
      rw [heq]
      exact ⟨⟨_, rfl⟩, rfl, rfl⟩
  · intro hnil
    have heq : syncModel sha providers sdict (some t) w =
        { sources := mkSyncSources providers sdict,
          effects := SyncEff.scanTarget ::
            dispatchSources w.syncRaises (mkSyncSources providers sdict),
          cacheAfter := w.cacheFiles, raised := none } := by
      simp [syncModel, syncAfterScan, hex, hscan, hnil]
    rw [heq]
    refine ⟨rfl, rfl, ?_, rfl⟩
    intro f h
    rcases List.mem_cons.mp h with h1 | h2
    · cases h1
    · exact dispatch_no_backup w.syncRaises _ f h2

/-- Witness for `c7_unsafe_or_fresh_target`: a one-file non-empty target
aborts the run with only the scan performed; the same world with an empty
listing dispatches the single configured source and writes nothing. -/
theorem c7_unsafe_or_fresh_target_witness :
    ((⟨true, Except.error (), ["junk.txt"], [], ['T'], [],
        fun _ => false⟩ : SyncWorld).targetExists = true ∧
     (⟨true, Except.error (), ["junk.txt"], [], ['T'], [],
        fun _ => false⟩ : SyncWorld).scanResult = Except.error ()) ∧
    (∃ msg, (syncModel (fun _ => ['S']) ["curseforge"] [("curseforge", ["A"])]
      (some "tgt")
      ⟨true, Except.error (), ["junk.txt"], [], ['T'], [],
        fun _ => false⟩).raised = some msg) ∧
    (syncModel (fun _ => ['S']) ["curseforge"] [("curseforge", ["A"])]
      (some "tgt")
      ⟨true, Except.error (), ["junk.txt"], [], ['T'], [],
        fun _ => false⟩).effects = [SyncEff.scanTarget] ∧
    (syncModel (fun _ => ['S']) ["curseforge"] [("curseforge", ["A"])]
      (some "tgt")
      ⟨true, Except.error (), [], [], ['T'], [],
        fun _ => false⟩).raised = none ∧
    (syncModel (fun _ => ['S']) ["curseforge"] [("curseforge", ["A"])]
      (some "tgt")
      ⟨true, Except.error (), [], [], ['T'], [],
        fun _ => false⟩).effects =
      [SyncEff.scanTarget, SyncEff.sourceSync "curseforge" "A",
        SyncEff.logFinished "A"] := by
  have h1 := c7_unsafe_or_fresh_target (fun _ => ['S']) ["curseforge"]
    [("curseforge", ["A"])] "tgt"
    ⟨true, Except.error (), ["junk.txt"], [], ['T'], [], fun _ => false⟩
    rfl rfl
  have h2 := c7_unsafe_or_fresh_target (fun _ => ['S']) ["curseforge"]
    [("curseforge", ["A"])] "tgt"
    ⟨true, Except.error (), [], [], ['T'], [], fun _ => false⟩
    rfl rfl
  obtain ⟨ha, haeff, -⟩ := h1.1 (by decide)
  obtain ⟨hb, hc, -, -⟩ := h2.2 rfl
  refine ⟨⟨rfl, rfl⟩, ha, haeff, hb, ?_⟩
  rw [hc]
  rfl

/-- C9: whenever the run reaches the dispatch phase, every source in the
resolution is synced: a source whose sync raises is caught and logged, the
remaining sources still run, and the run as a whole never raises because a
source failed. -/
theorem c9_source_failure_isolated (sha : List Nat → List Char)
    (providers : List String) (sdict : List (String × List String))
    (t : String) (w : SyncWorld)
    (hsafe : w.targetExists = true → w.scanResult = Except.error () →
      w.listing = []) :
    (syncModel sha providers sdict (some t) w).raised = none ∧
    ∀ s ∈ mkSyncSources providers sdict,
      SyncEff.sourceSync s.1 s.2 ∈
        (syncModel sha providers sdict (some t) w).effects ∧
      (w.syncRaises s = true → SyncEff.logException s.2 ∈
        (syncModel sha providers sdict (some t) w).effects) ∧
      (w.syncRaises s = false → SyncEff.logFinished s.2 ∈
        (syncModel sha providers sdict (some t) w).effects) := by
  obtain ⟨pre, heff, hraised⟩ :=
    syncModel_reaches_dispatch sha providers sdict t w hsafe
  refine ⟨hraised, ?_⟩
  intro s hs
  obtain ⟨h1, h2, h3⟩ := dispatch_mem w.syncRaises _ s hs
  rw [heff]
  exact ⟨List.mem_append_right _ h1,
    fun hr => List.mem_append_right _ (h2 hr),
    fun hr => List.mem_append_right _ (h3 hr)⟩

/-- Witness for `c9_source_failure_isolated`: two local sources, the first
of which raises during sync; both are dispatched, the failure is logged,
and the run does not raise. -/
theorem c9_source_failure_isolated_witness :
    ((⟨false, Except.error (), [], [], ['T'], [],
        fun s => s.2 == "bad"⟩ : SyncWorld).targetExists = true →
      (⟨false, Except.error (), [], [], ['T'], [],
        fun s => s.2 == "bad"⟩ : SyncWorld).scanResult = Except.error () →
      (⟨false, Except.error (), [], [], ['T'], [],
        fun s => s.2 == "bad"⟩ : SyncWorld).listing = []) ∧
    (syncModel (fun _ => ['S']) ["local"] [("local", ["bad", "good"])]
      (some "tgt")
      ⟨false, Except.error (), [], [], ['T'], [],
        fun s => s.2 == "bad"⟩).raised = none ∧
    ∀ s ∈ mkSyncSources ["local"] [("local", ["bad", "good"])],
      SyncEff.sourceSync s.1 s.2 ∈
        (syncModel (fun _ => ['S']) ["local"] [("local", ["bad", "good"])]
          (some "tgt")
          ⟨false, Except.error (), [], [], ['T'], [],
            fun s => s.2 == "bad"⟩).effects ∧
      ((fun (s : String × String) => s.2 == "bad") s = true →
        SyncEff.logException s.2 ∈
        (syncModel (fun _ => ['S']) ["local"] [("local", ["bad", "good"])]
          (some "tgt")
          ⟨false, Except.error (), [], [], ['T'], [],
            fun s => s.2 == "bad"⟩).effects) ∧
      ((fun (s : String × String) => s.2 == "bad") s = false →
        SyncEff.logFinished s.2 ∈
        (syncModel (fun _ => ['S']) ["local"] [("local", ["bad", "good"])]
          (some "tgt")
          ⟨false, Except.error (), [], [], ['T'], [],
            fun s => s.2 == "bad"⟩).effects) := by
  have h := c9_source_failure_isolated (fun _ => ['S']) ["local"]
    [("local", ["bad", "good"])] "tgt"
    ⟨false, Except.error (), [], [], ['T'], [], fun s => s.2 == "bad"⟩
    (by intro hfalse; exact absurd hfalse (by decide))
  exact ⟨(by intro hfalse; exact absurd hfalse (by decide)), h.1, h.2⟩

/-- C3: the backup block of `sync` (sync.py lines 63-81, modelled by the
truthy branch of `syncAfterScan`) implements digest-based deduplication,
but in this revision `scan` returns `None` whenever it does not raise
(scan.py lines 53-54) and the except-branch sets `addons = []`, so the
guard `if addons:` is never satisfied: no `sync` run ever writes a backup,
and the cache directory contents are unchanged by every run. -/
theorem c3_sync_never_backs_up (sha : List Nat → List Char)
    (providers : List String) (sdict : List (String × List String))
    (target : Option String) (w : SyncWorld) :
    (∀ f, SyncEff.saveBackup f ∉
      (syncModel sha providers sdict target w).effects) ∧
    (syncModel sha providers sdict target w).cacheAfter = w.cacheFiles := by
  cases target with
  | none =>
    refine ⟨?_, rfl⟩
    intro f h
    cases h
  | some t =>
    cases hex : w.targetExists
    · have heq : syncModel sha providers sdict (some t) w =
          { sources := mkSyncSources providers sdict,
            effects := SyncEff.mkdirTarget ::
              dispatchSources w.syncRaises (mkSyncSources providers sdict),
            cacheAfter := w.cacheFiles, raised := none } := by
        simp [syncModel, hex]
      rw [heq]
      refine ⟨?_, rfl⟩
      intro f h
      rcases List.mem_cons.mp h with h1 | h2
      · cases h1
      · exact dispatch_no_backup w.syncRaises _ f h2
    · cases hscan : w.scanResult with
      | error e =>
        cases e
        cases hl : w.listing with
        | nil =>
          have heq : syncModel sha providers sdict (some t) w =
              { sources := mkSyncSources providers sdict,
                effects := SyncEff.scanTarget ::
                  dispatchSources w.syncRaises
                    (mkSyncSources providers sdict),
                cacheAfter := w.cacheFiles, raised := none } := by
            simp [syncModel, syncAfterScan, hex, hscan, hl]
          rw [heq]
          refine ⟨?_, rfl⟩
          intro f h
          rcases List.mem_cons.mp h with h1 | h2
          · cases h1
          · exact dispatch_no_backup w.syncRaises _ f h2
        | cons a as =>
          have heq : syncModel sha providers sdict (some t) w =
              { sources := mkSyncSources providers sdict,
                effects := [SyncEff.scanTarget],
                cacheAfter := w.cacheFiles,
                raised := some "sync target is not empty and appears to be NOT an addon directory" } := by
            simp [syncModel, hex, hscan, hl]
          rw [heq]
          refine ⟨?_, rfl⟩
          intro f h
          rcases List.mem_cons.mp h with h1 | h2
          · cases h1
          · cases h2
      | ok u =>
        cases u
        have heq : syncModel sha providers sdict (some t) w =
            { sources := mkSyncSources providers sdict,
              effects := SyncEff.scanTarget ::
                dispatchSources w.syncRaises (mkSyncSources providers sdict),
              cacheAfter := w.cacheFiles, raised := none } := by
          simp [syncModel, syncAfterScan, hex, hscan]
        rw [heq]
        refine ⟨?_, rfl⟩
        intro f h
        rcases List.mem_cons.mp h with h1 | h2
        · cases h1
        · exact dispatch_no_backup w.syncRaises _ f h2

end Wowplug
